import Mathlib

/-
  Verification of the livellm-proxy audio transcoding pipeline.

  Shallow embedding of the audio pipeline code:
    - src/audio_ai/utils/chunking.py   (ChunkCollector)
    - src/audio_ai/utils/resampling.py (Resampler, _resample_pcm16_sync)
    - src/audio_ai/utils/encoding.py   (encode / decode / encode_from_pcm_stream /
                                        decode_into_pcm_stream)
    - src/audio_ai/base.py             (AudioAIService.speak / stream_speak,
                                        AudioRealtimeTranscriptionService.realtime_transcribe)
    - src/models/audio/speak.py        (SpeakRequest validators, SpeakMimeType)

  Conventions:
    - A byte is a Nat (values 0..255 in every reachable value).
    - 16-bit little-endian signed samples are Int.
    - Async byte streams become List (List Nat): the finite list of chunks a
      stream yields before it is exhausted.  Composed async generators that are
      consumed to exhaustion are modelled by composing the corresponding list
      transformers.
    - The scipy resample core (resample_poly) is an external library call; all
      structural claims are proved for an arbitrary core function, constrained
      only where needed by the documented scipy output-length law
      len(out) = ceil(len(in) * up / down).
-/

/-- np.frombuffer(..., dtype=np.int16): decode little-endian byte pairs into
    signed 16-bit samples.  The code only ever calls this on even-length
    buffers; a trailing odd byte (unreachable) is ignored. -/
def bytesToI16 : List Nat → List Int
  | lo :: hi :: rest =>
      (if lo % 256 + 256 * (hi % 256) < 32768 then
        ((lo % 256 + 256 * (hi % 256) : Nat) : Int)
      else
        ((lo % 256 + 256 * (hi % 256) : Nat) : Int) - 65536) :: bytesToI16 rest
  | _ => []

/-- ndarray.tobytes() for an int16 array: encode each signed 16-bit sample as
    two little-endian bytes (two's complement). -/
def i16ToBytes (l : List Int) : List Nat :=
  l.flatMap fun x => [(x % 65536).toNat % 256, (x % 65536).toNat / 256]

/-- ChunkCollector.bytes_per_chunk:
    int((chunk_size_ms / 1000.0) * sample_rate * 2).
    Modelled with exact rational arithmetic (Nat floor division); this equals
    the Python float expression whenever the binary floating-point product is
    exact, which holds at every input used in a theorem below. -/
def bytesPerChunk (chunk_size_ms sample_rate : Nat) : Nat :=
  chunk_size_ms * sample_rate * 2 / 1000

/-- round(a / b) to the nearest integer (halves rounding up).  Used only to
    state the specification formula round(chunk_ms/1000 * rate); it agrees
    with Python round() away from exact halves. -/
def roundDiv (a b : Nat) : Nat := (2 * a + b) / (2 * b)

/-- ChunkCollector.collect_chunks: append to the carry buffer (already done by
    the caller here) and emit as many full n-byte frames as available,
    returning the emitted frames and the remaining carry buffer.  The Python
    while-loop requires n > 0 to terminate; for n = 0 we return the buffer
    untouched (the constructors used by the pipeline always give n > 0). -/
def collectChunks (n : Nat) (buf : List Nat) : List (List Nat) × List Nat :=
  if _h : 0 < n ∧ n ≤ buf.length then
    let rest := collectChunks n (buf.drop n)
    (buf.take n :: rest.1, rest.2)
  else
    ([], buf)
  termination_by buf.length
  decreasing_by simp only [List.length_drop]; omega

/-- The carry-buffer fold inside ChunkCollector.process_stream: feed each
    incoming chunk into the buffer and collect full frames. -/
def chunkerFeed (n : Nat) (buf : List Nat) : List (List Nat) → List (List Nat) × List Nat
  | [] => ([], buf)
  | c :: cs =>
      let step := collectChunks n (buf ++ c)
      let rest := chunkerFeed n step.2 cs
      (step.1 ++ rest.1, rest.2)

/-- ChunkCollector.process_stream: emit full frames while consuming the input
    stream, then flush the (unpadded) remainder if it is non-empty. -/
def chunkerProcessStream (n : Nat) (chunks : List (List Nat)) : List (List Nat) :=
  let r := chunkerFeed n [] chunks
  r.1 ++ (if r.2 = [] then [] else [r.2])

/-- Resampler state (src/audio_ai/utils/resampling.py).  input_tail models
    _input_tail_f32 at sample granularity (None and the empty array behave
    identically in the code, so both are the empty list). -/
structure Resampler where
  input_sample_rate : Nat
  output_sample_rate : Nat
  audio_buffer : List Nat
  up : Nat
  down : Nat
  tail_len : Nat
  input_tail : List Int

/-- Resampler.__init__: derive up/down from the gcd and set the heuristic
    tail length RESAMPLER_TAIL_MULTIPLIER * max(up, down) with multiplier 10. -/
def mkResampler (input_sample_rate output_sample_rate : Nat) : Resampler :=
  let g := Nat.gcd input_sample_rate output_sample_rate
  let up := output_sample_rate / g
  let down := input_sample_rate / g
  { input_sample_rate := input_sample_rate
    output_sample_rate := output_sample_rate
    audio_buffer := []
    up := up
    down := down
    tail_len := 10 * max up down
    input_tail := [] }

/-- Resampler.process_chunk.  rsf is the stateless resample core
    resample_poly(·, up, down) at sample granularity (the float32
    normalisation and the int16 re-quantisation on either side of the core
    preserve sample counts, so every structural property is faithful). -/
def Resampler.processChunk (rsf : List Int → List Int) (r : Resampler)
    (pcm16 : List Nat) (flush : Bool) : List Nat × Resampler :=
  let pcm1 := r.audio_buffer ++ pcm16
  let r1 := { r with audio_buffer := [] }
  let step :=
    if pcm1.length % 2 ≠ 0 then
      if flush then (pcm1 ++ [0], r1)
      else (pcm1.dropLast, { r1 with audio_buffer := pcm1.drop (pcm1.length - 1) })
    else (pcm1, r1)
  let pcm2 := step.1
  let r2 := step.2
  if pcm2 = [] then ([], r2)
  else if r.input_sample_rate = r.output_sample_rate then (pcm2, r2)
  else
    let curr := bytesToI16 pcm2
    let concat_in := r.input_tail ++ curr
    let tail_in_len := r.input_tail.length
    let out_full := rsf concat_in
    let out :=
      if 0 < tail_in_len then
        let tail_out_len := tail_in_len * r.up / r.down
        if 0 < tail_out_len ∧ tail_out_len < out_full.length then
          out_full.drop tail_out_len
        else out_full
      else out_full
    let new_tail :=
      if 0 < r.tail_len then
        if r.tail_len < concat_in.length then
          concat_in.drop (concat_in.length - r.tail_len)
        else concat_in
      else []
    (i16ToBytes out, { r2 with input_tail := new_tail })

/-- Resampler.process_stream: process each chunk, yield non-empty outputs,
    then issue exactly one flush call if the odd-byte buffer is non-empty. -/
def Resampler.processStream (rsf : List Int → List Int) (r : Resampler) :
    List (List Nat) → List (List Nat) × Resampler
  | [] =>
      if r.audio_buffer = [] then ([], r)
      else
        let fin := Resampler.processChunk rsf r [] true
        ((if fin.1 = [] then [] else [fin.1]), fin.2)
  | c :: cs =>
      let step := Resampler.processChunk rsf r c false
      let rest := Resampler.processStream rsf step.2 cs
      ((if step.1 = [] then [] else [step.1]) ++ rest.1, rest.2)

/-- The per-chunk outputs of a sequence of process_chunk calls, without the
    non-empty filtering and without the trailing flush: one entry per input
    chunk, in arrival order. -/
def perChunkOutputs (rsf : List Int → List Int) (r : Resampler) :
    List (List Nat) → List (List Nat)
  | [] => []
  | c :: cs =>
      let step := Resampler.processChunk rsf r c false
      step.1 :: perChunkOutputs rsf step.2 cs

/-- A float value as classified by IEEE 754: NaN, the two infinities, or a
    finite value (modelled exactly as a rational).  This is the codomain of
    the abstract resample core inside _resample_pcm16_sync, which may produce
    non-finite values (numeric degeneracy). -/
inductive PyFloat where
  | nan : PyFloat
  | posinf : PyFloat
  | neginf : PyFloat
  | val : ℚ → PyFloat

/-- np.nan_to_num(out, nan=0.0, posinf=1.0, neginf=-1.0). -/
def nanToNum : PyFloat → ℚ
  | .nan => 0
  | .posinf => 1
  | .neginf => -1
  | .val q => q

/-- ndarray.clip(lo, hi). -/
def clipQ (lo hi q : ℚ) : ℚ := max lo (min hi q)

/-- float-to-int16 cast (astype(np.int16)) on an already in-range value:
    C-style truncation toward zero. -/
def truncQ (q : ℚ) : Int := if 0 ≤ q then Int.floor q else Int.ceil q

/-- The final conversion of one resampled sample inside _resample_pcm16_sync:
    out = np.nan_to_num(out, nan=0.0, posinf=1.0, neginf=-1.0);
    (out.clip(-1, 1) * PCM16_MAX_INT).astype(np.int16), PCM16_MAX_INT = 32767. -/
def finalizeSample (x : PyFloat) : Int := truncQ (clipQ (-1) 1 (nanToNum x) * 32767)

/-- _resample_pcm16_sync with the scipy resample_poly call abstracted as
    core : List ℚ → List PyFloat (it may output non-finite values).
    Empty input short-circuits to empty output; otherwise the bytes are
    decoded to int16, normalised by PCM16_MAX_VALUE = 32768, resampled, then
    de-normalised through finalizeSample and re-encoded as bytes. -/
def resamplePcm16Sync (core : List ℚ → List PyFloat) (pcm16 : List Nat) : List Nat :=
  if pcm16 = [] then []
  else
    i16ToBytes
      (((core ((bytesToI16 pcm16).map fun i => (i : ℚ) / 32768)).map finalizeSample))

/-- models/audio/speak.py SpeakMimeType. -/
inductive SpeakMimeType where
  | PCM : SpeakMimeType
  | WAV : SpeakMimeType
  | MP3 : SpeakMimeType
  | ULAW : SpeakMimeType
  | ALAW : SpeakMimeType
deriving DecidableEq

/-- SpeakMimeType.value. -/
def mimeValue : SpeakMimeType → String
  | .PCM => "audio/pcm"
  | .WAV => "audio/wav"
  | .MP3 => "audio/mpeg"
  | .ULAW => "audio/ulaw"
  | .ALAW => "audio/alaw"

/-- str(mime_type) as interpolated by the f-string in the ValueError message. -/
def mimeRepr : SpeakMimeType → String
  | .PCM => "SpeakMimeType.PCM"
  | .WAV => "SpeakMimeType.WAV"
  | .MP3 => "SpeakMimeType.MP3"
  | .ULAW => "SpeakMimeType.ULAW"
  | .ALAW => "SpeakMimeType.ALAW"

/-- audioop st_ulaw2linear16: expand one mu-law byte to a signed 16-bit
    sample (G.711 expansion; audioop is the CPython stdlib implementation
    behind ulaw2lin(fragment, 2)). -/
def st_ulaw2linear16 (b : Nat) : Int :=
  let u := 255 - b % 256
  let t : Int := ((u % 16) * 8 + 132) * 2 ^ (u / 16 % 8)
  if 128 ≤ u then 132 - t else t - 132

/-- audioop st_alaw2linear16: expand one A-law byte to a signed 16-bit
    sample (G.711 expansion behind alaw2lin(fragment, 2)). -/
def st_alaw2linear16 (b : Nat) : Int :=
  let a := (b % 256) ^^^ 85
  let seg := a / 16 % 8
  let q := a % 16
  let t : Int :=
    if seg = 0 then q * 16 + 8
    else if seg = 1 then q * 16 + 264
    else (q * 16 + 264) * 2 ^ (seg - 1)
  if 128 ≤ a then t else -t

/-- Segment search over seg_uend = {0x3F,0x7F,0xFF,0x1FF,0x3FF,0x7FF,0xFFF,0x1FFF}. -/
def ulawSegSearch (v : Int) : Nat :=
  if v ≤ 63 then 0 else if v ≤ 127 then 1 else if v ≤ 255 then 2
  else if v ≤ 511 then 3 else if v ≤ 1023 then 4 else if v ≤ 2047 then 5
  else if v ≤ 4095 then 6 else if v ≤ 8191 then 7 else 8

/-- audioop st_14linear2ulaw: compress one 14-bit sample (the 16-bit sample
    arithmetically shifted right by 2) to a mu-law byte. -/
def st_14linear2ulaw (pcm : Int) : Nat :=
  let mask := if pcm < 0 then 127 else 255
  let p0 := if pcm < 0 then -pcm else pcm
  let p1 := if 8159 < p0 then 8159 else p0
  let p2 := p1 + 33
  let seg := ulawSegSearch p2
  if 8 ≤ seg then 127 ^^^ mask
  else (seg * 16 + p2.toNat / 2 ^ (seg + 1) % 16) ^^^ mask

/-- Segment search over seg_aend = {0x1F,0x3F,0x7F,0xFF,0x1FF,0x3FF,0x7FF,0xFFF}. -/
def alawSegSearch (v : Int) : Nat :=
  if v ≤ 31 then 0 else if v ≤ 63 then 1 else if v ≤ 127 then 2
  else if v ≤ 255 then 3 else if v ≤ 511 then 4 else if v ≤ 1023 then 5
  else if v ≤ 2047 then 6 else if v ≤ 4095 then 7 else 8

/-- audioop st_linear2alaw: compress one 13-bit sample (the 16-bit sample
    arithmetically shifted right by 3) to an A-law byte. -/
def st_linear2alaw (pcm : Int) : Nat :=
  let mask := if 0 ≤ pcm then 213 else 85
  let p0 := if 0 ≤ pcm then pcm else -pcm - 1
  let seg := alawSegSearch p0
  if 8 ≤ seg then 127 ^^^ mask
  else
    let low := if seg < 2 then p0.toNat / 2 % 16 else p0.toNat / 2 ^ seg % 16
    (seg * 16 + low) ^^^ mask

/-- audioop lin2ulaw(fragment, 2): per 16-bit sample mu-law compression
    (the sample is arithmetically shifted to 14 bits first). -/
def lin2ulaw (audio : List Nat) : List Nat :=
  (bytesToI16 audio).map fun s => st_14linear2ulaw (Int.ediv s 4)

/-- audioop lin2alaw(fragment, 2): per 16-bit sample A-law compression
    (the sample is arithmetically shifted to 13 bits first). -/
def lin2alaw (audio : List Nat) : List Nat :=
  (bytesToI16 audio).map fun s => st_linear2alaw (Int.ediv s 8)

/-- audioop ulaw2lin(fragment, 2): one 16-bit sample per input byte. -/
def ulaw2lin (audio : List Nat) : List Nat :=
  i16ToBytes (audio.map st_ulaw2linear16)

/-- audioop alaw2lin(fragment, 2): one 16-bit sample per input byte. -/
def alaw2lin (audio : List Nat) : List Nat :=
  i16ToBytes (audio.map st_alaw2linear16)

/-- encoding.encode: transform PCM to the target mime type.  There is no
    branch for WAV or MP3: both fall to the ValueError. -/
def encode (audio : List Nat) (mime_type : SpeakMimeType) : Except String (List Nat) :=
  match mime_type with
  | .PCM => .ok audio
  | .ULAW => .ok (lin2ulaw audio)
  | .ALAW => .ok (lin2alaw audio)
  | m => .error ("Unsupported MIME type: " ++ mimeRepr m)

/-- encoding.decode: transform input audio to PCM. -/
def decode (audio : List Nat) (mime_type : SpeakMimeType) : Except String (List Nat) :=
  match mime_type with
  | .PCM => .ok audio
  | .ULAW => .ok (ulaw2lin audio)
  | .ALAW => .ok (alaw2lin audio)
  | m => .error ("Unsupported MIME type: " ++ mimeRepr m)

/-- The successful branches of decode as a total function (used to state that
    decoding a PCM/ULAW/ALAW stream never errors). -/
def decodeOk (mime_type : SpeakMimeType) (audio : List Nat) : List Nat :=
  match mime_type with
  | .ULAW => ulaw2lin audio
  | .ALAW => alaw2lin audio
  | _ => audio

/-- models/audio/speak.py SpeakRequest (the fields the pipeline reads). -/
structure SpeakRequest where
  model : String
  text : String
  voice : String
  mime_type : SpeakMimeType
  sample_rate : Nat
  chunk_size : Nat

/-- AudioAIService.speak: provider audio at the native rate is resampled with
    flush=True to the target rate, then encoded to the target mime type;
    the response carries mime_type.value and the target sample rate.
    An encode ValueError propagates. -/
def speak (rsf : List Int → List Int) (default_sample_rate : Nat)
    (req : SpeakRequest) (provider_audio : List Nat) :
    Except String (List Nat × String × Nat) :=
  let audio1 := (Resampler.processChunk rsf (mkResampler default_sample_rate req.sample_rate)
      provider_audio true).1
  (encode audio1 req.mime_type).map fun a => (a, mimeValue req.mime_type, req.sample_rate)

/-- What AudioAIService.stream_speak has in hand when it returns: the first
    provider chunk it eagerly pulled (none when the provider stream was
    exhausted immediately), the remaining provider chunks, and the request
    parameters captured by the generator pipeline it constructed (whose
    bodies have not run yet). -/
structure StreamHandle where
  pulled_first : Option (List Nat)
  rest : List (List Nat)
  mime_type : SpeakMimeType
  sample_rate : Nat
  chunk_size : Nat
  default_rate : Nat

/-- AudioAIService.stream_speak up to its return statement.  It pulls the
    first chunk from the provider stream (generator.__anext__()); if that
    raises StopAsyncIteration it returns the single-empty-chunk generator,
    otherwise it builds the resample/chunk/encode generator pipeline without
    running any of it.  No mime-type validation happens on this path, and the
    function returns mime_type.value and the target sample rate in both
    cases. -/
def stream_speak (default_rate : Nat) (req : SpeakRequest)
    (provider : List (List Nat)) : StreamHandle × String × Nat :=
  match provider with
  | [] =>
      ({ pulled_first := none, rest := [], mime_type := req.mime_type,
         sample_rate := req.sample_rate, chunk_size := req.chunk_size,
         default_rate := default_rate },
       mimeValue req.mime_type, req.sample_rate)
  | c :: cs =>
      ({ pulled_first := some c, rest := cs, mime_type := req.mime_type,
         sample_rate := req.sample_rate, chunk_size := req.chunk_size,
         default_rate := default_rate },
       mimeValue req.mime_type, req.sample_rate)

/-- Consuming the stream returned by stream_speak to exhaustion.  The empty
    branch is the empty_generator yielding one empty chunk; otherwise
    encode_from_pcm_stream raises the unsupported ValueError for WAV/MP3 at
    its first pull (before consuming anything from upstream), and for the
    remaining formats the composed generators amount to
    resample, then fixed-window chunk, then per-frame encode. -/
def consumeStream (rsf : List Int → List Int) (h : StreamHandle) :
    Except String (List (List Nat)) :=
  match h.pulled_first with
  | none => .ok [[]]
  | some c =>
      if h.mime_type = .WAV ∨ h.mime_type = .MP3 then
        .error (mimeValue h.mime_type ++ " encoding is not supported")
      else
        let resampled := (Resampler.processStream rsf
            (mkResampler h.default_rate h.sample_rate) (c :: h.rest)).1
        let chunked := chunkerProcessStream (bytesPerChunk h.chunk_size h.sample_rate) resampled
        chunked.mapM fun fr => encode fr h.mime_type

/-- The audio-send path of AudioRealtimeTranscriptionService.realtime_transcribe:
    the caller chunks pass through decode_into_pcm_stream (declared input
    format to linear PCM) and then through
    Resampler(input_sample_rate, default_sample_rate).process_stream, and the
    resulting stream is handed to send_audio_chunk.  The value is the list of
    chunks the provider send path receives, in order. -/
def realtimeSendChunks (rsf : List Int → List Int) (input_format : SpeakMimeType)
    (input_sample_rate provider_rate : Nat) (chunks : List (List Nat)) :
    Except String (List (List Nat)) := do
  let decoded ← chunks.mapM fun c => decode c input_format
  pure (Resampler.processStream rsf (mkResampler input_sample_rate provider_rate) decoded).1

/-- Python str.isspace for the characters produced in this model (the ASCII
    whitespace set; the Unicode extension is irrelevant to the claims). -/
def pyIsSpace (c : Char) : Bool :=
  c == ' ' || c == '\t' || c == '\n' || c == '\r' || c == '\x0b' || c == '\x0c'

/-- Python str.strip() with no arguments: remove leading and trailing
    whitespace. -/
def pyStrip (s : List Char) : List Char :=
  ((s.dropWhile pyIsSpace).reverse.dropWhile pyIsSpace).reverse

/-- SpeakRequest.validate_text: raise ValueError when the stripped text is
    empty, otherwise return the text unchanged. -/
def validate_text (v : List Char) : Except String (List Char) :=
  if pyStrip v = [] then .error "Text cannot be empty or whitespace only" else .ok v

/-- A concrete resample core for 24000 to 16000 Hz (up = 2, down = 3)
    satisfying the scipy resample_poly output-length law
    len(out) = ceil(len(in) * up / down); used by witnesses. -/
def rsfTwoThirds : List Int → List Int :=
  fun l => List.replicate ((l.length * 2 + 2) / 3) 0

/-- A concrete resample core for 8000 to 24000 Hz (up = 3, down = 1)
    satisfying the scipy output-length law; used by witnesses. -/
def rsfTriple : List Int → List Int :=
  fun l => List.replicate (l.length * 3) 0

/-- The identity core (arbitrary placeholder where the core is never
    reached, e.g. equal-rate paths and rejected requests). -/
def rsfId : List Int → List Int := fun l => l

/-- A concrete WAV streaming request (counterexample input). -/
def reqWav : SpeakRequest :=
  { model := "m", text := "hello", voice := "v", mime_type := .WAV,
    sample_rate := 24000, chunk_size := 20 }

/-- A concrete MP3 streaming request (witness input). -/
def reqMp3 : SpeakRequest :=
  { model := "m", text := "hello", voice := "v", mime_type := .MP3,
    sample_rate := 24000, chunk_size := 20 }

/-! ### Byte and sample lemmas -/

theorem i16ToBytes_length (l : List Int) : (i16ToBytes l).length = 2 * l.length := by
  induction l with
  | nil => rfl
  | cons x t ih => simp [i16ToBytes, List.flatMap_cons] at ih ⊢; omega

theorem bytesToI16_nil_of_short (b : List Nat)
    (h : ∀ (lo hi : Nat) (rest : List Nat), b = lo :: hi :: rest → False) :
    bytesToI16 b = [] := by
  rw [bytesToI16]; exact h

theorem bytesToI16_length (b : List Nat) : (bytesToI16 b).length = b.length / 2 := by
  induction b using bytesToI16.induct with
  | case1 lo hi rest ih => rw [bytesToI16]; simp [ih]; omega
  | case2 b h =>
      rw [bytesToI16_nil_of_short b h]
      have : b.length ≤ 1 := by
        cases b with
        | nil => simp
        | cons a t =>
            cases t with
            | nil => simp
            | cons a2 t2 => exact absurd rfl (h a a2 t2)
      simp; omega

theorem bytesToI16_i16ToBytes (l : List Int)
    (h : ∀ x ∈ l, -32768 ≤ x ∧ x ≤ 32767) : bytesToI16 (i16ToBytes l) = l := by
  induction l with
  | nil => rfl
  | cons x t ih =>
      have hx := h x (by simp)
      have hrest := ih fun y hy => h y (by simp [hy])
      simp only [i16ToBytes, List.flatMap_cons, List.cons_append, List.nil_append] at *
      rw [bytesToI16]
      rw [hrest]
      congr 1
      split <;> omega

/-! ### Fixed-window chunker lemmas -/

theorem collectChunks_frames (n : Nat) (buf : List Nat) :
    ∀ f ∈ (collectChunks n buf).1, f.length = n := by
  refine collectChunks.induct n (fun b => ∀ f ∈ (collectChunks n b).1, f.length = n) ?_ ?_ buf
  · intro b hcond ih f hf
    rw [collectChunks, dif_pos hcond] at hf
    rcases List.mem_cons.mp hf with hf | hf
    · subst hf; simp [List.length_take]; omega
    · exact ih f hf
  · intro b hcond f hf
    rw [collectChunks, dif_neg hcond] at hf
    simp at hf

theorem collectChunks_flatten (n : Nat) (buf : List Nat) :
    (collectChunks n buf).1.flatten ++ (collectChunks n buf).2 = buf := by
  refine collectChunks.induct n
    (fun b => (collectChunks n b).1.flatten ++ (collectChunks n b).2 = b) ?_ ?_ buf
  · intro b hcond ih
    rw [collectChunks, dif_pos hcond]
    simp only [List.flatten_cons, List.append_assoc, ih]
    exact List.take_append_drop n b
  · intro b hcond
    rw [collectChunks, dif_neg hcond]; simp

theorem collectChunks_rest_lt (n : Nat) (hn : 0 < n) (buf : List Nat) :
    (collectChunks n buf).2.length < n := by
  refine collectChunks.induct n (fun b => (collectChunks n b).2.length < n) ?_ ?_ buf
  · intro b hcond ih
    rw [collectChunks, dif_pos hcond]
    exact ih
  · intro b hcond
    rw [collectChunks, dif_neg hcond]
    show b.length < n
    omega

theorem chunkerFeed_frames (n : Nat) (buf : List Nat) (chunks : List (List Nat)) :
    ∀ f ∈ (chunkerFeed n buf chunks).1, f.length = n := by
  induction chunks generalizing buf with
  | nil => intro f hf; simp [chunkerFeed] at hf
  | cons c cs ih =>
      intro f hf
      rw [chunkerFeed] at hf
      rcases List.mem_append.mp hf with hf | hf
      · exact collectChunks_frames n (buf ++ c) f hf
      · exact ih _ f hf

theorem chunkerFeed_flatten (n : Nat) (buf : List Nat) (chunks : List (List Nat)) :
    (chunkerFeed n buf chunks).1.flatten ++ (chunkerFeed n buf chunks).2
      = buf ++ chunks.flatten := by
  induction chunks generalizing buf with
  | nil => simp [chunkerFeed]
  | cons c cs ih =>
      rw [chunkerFeed]
      simp only [List.flatten_append, List.append_assoc, List.flatten_cons]
      rw [ih]
      rw [← List.append_assoc]
      rw [collectChunks_flatten]
      simp

theorem chunkerFeed_rest_lt (n : Nat) (hn : 0 < n) (buf : List Nat)
    (chunks : List (List Nat)) (hb : buf.length < n) :
    (chunkerFeed n buf chunks).2.length < n := by
  induction chunks generalizing buf with
  | nil => simpa [chunkerFeed] using hb
  | cons c cs ih =>
      rw [chunkerFeed]
      exact ih _ (collectChunks_rest_lt n hn (buf ++ c))

theorem chunkerProcessStream_eq (n : Nat) (chunks : List (List Nat)) :
    chunkerProcessStream n chunks
      = (chunkerFeed n [] chunks).1
        ++ (if (chunkerFeed n [] chunks).2 = [] then [] else [(chunkerFeed n [] chunks).2]) :=
  rfl

set_option maxRecDepth 4096 in
theorem chunkerFeed_singleton (n : Nat) (buf c : List Nat) :
    chunkerFeed n buf [c] = collectChunks n (buf ++ c) := by
  rw [chunkerFeed, chunkerFeed]
  simp only [List.append_nil]

/-- Claim C2 (amended): for every input stream, each frame the chunker emits
    except possibly the final one has length exactly
    int((chunk_ms/1000) * sample_rate * 2) bytes (the byte count the code
    computes by truncation, which can differ from round(chunk_ms/1000*rate)*2),
    the concatenation of the emitted frames equals the concatenation of the
    input bytes (order preserved, totals equal), no frame is empty, and the
    final frame is never padded (it is exactly the residual bytes). -/
theorem chunker_stream_spec (n : Nat) (hn : 0 < n) (chunks : List (List Nat)) :
    (∀ f ∈ (chunkerProcessStream n chunks).dropLast, f.length = n) ∧
    (chunkerProcessStream n chunks).flatten = chunks.flatten ∧
    ∀ f ∈ chunkerProcessStream n chunks, f ≠ [] := by
  have hframes := chunkerFeed_frames n [] chunks
  have hflat := chunkerFeed_flatten n [] chunks
  rw [chunkerProcessStream_eq]
  by_cases hrest : (chunkerFeed n [] chunks).2 = []
  · rw [if_pos hrest, List.append_nil]
    rw [hrest] at hflat
    refine ⟨?_, ?_, ?_⟩
    · intro f hf
      exact hframes f ((List.dropLast_sublist _).subset hf)
    · simpa using hflat
    · intro f hf
      have hl := hframes f hf
      intro hfe
      rw [hfe] at hl
      simp at hl
      omega
  · rw [if_neg hrest]
    refine ⟨?_, ?_, ?_⟩
    · intro f hf
      rw [List.dropLast_concat] at hf
      exact hframes f hf
    · rw [List.flatten_append]
      simpa using hflat
    · intro f hf
      rcases List.mem_append.mp hf with hf | hf
      · have hl := hframes f hf
        intro hfe
        rw [hfe] at hl
        simp at hl
        omega
      · simp at hf
        subst hf
        exact hrest

/-- Witness for chunker_stream_spec: a concrete run with n = 4. -/
theorem chunker_stream_spec_witness :
    (0 : Nat) < 4 ∧
    ((∀ f ∈ (chunkerProcessStream 4 [[1, 2, 3], [4, 5, 6]]).dropLast, f.length = 4) ∧
    (chunkerProcessStream 4 [[1, 2, 3], [4, 5, 6]]).flatten = [[1, 2, 3], [4, 5, 6]].flatten ∧
    ∀ f ∈ chunkerProcessStream 4 [[1, 2, 3], [4, 5, 6]], f ≠ []) :=
  ⟨by decide, chunker_stream_spec 4 (by decide) [[1, 2, 3], [4, 5, 6]]⟩

/-- Claim C2 (counterexample): the claimed frame length
    round((chunk_ms/1000) * sample_rate) * 2 is wrong.  With chunk_ms = 125 and
    sample_rate = 8006 (both inside the validated request ranges, and with the
    Python float expression int((125/1000.0)*8006*2) exact in binary floating
    point) the code computes 125*8006*2 // 1000 = 2001 bytes per frame, while
    the claimed formula gives round(1000.75)*2 = 2002.  Feeding 2500 bytes
    emits a non-final 2001-byte frame (a 499-byte final frame follows), and
    2001 differs from the claimed 2002. -/
theorem chunker_round_counterexample :
    ((chunkerProcessStream (bytesPerChunk 125 8006) [List.replicate 2500 0]).map List.length
      = [2001, 499]) ∧ roundDiv (125 * 8006) 1000 * 2 = 2002 ∧ (2001 : Nat) ≠ 2002 := by
  have hbc : bytesPerChunk 125 8006 = 2001 := by norm_num [bytesPerChunk]
  have hc1 : collectChunks 2001 (List.replicate 2500 (0 : Nat))
      = ([List.replicate 2001 0], List.replicate 499 0) := by
    rw [collectChunks, dif_pos (by simp only [List.length_replicate]; omega)]
    simp only [List.take_replicate, List.drop_replicate]
    have h1 : min 2001 2500 = 2001 := by omega
    have h2 : 2500 - 2001 = 499 := by omega
    rw [h1, h2]
    rw [collectChunks, dif_neg (by simp only [List.length_replicate]; omega)]
  have hfeed : chunkerFeed 2001 [] [List.replicate 2500 (0 : Nat)]
      = ([List.replicate 2001 0], List.replicate 499 0) := by
    rw [chunkerFeed_singleton, List.nil_append, hc1]
  refine ⟨?_, by norm_num [roundDiv], by decide⟩
  rw [hbc, chunkerProcessStream_eq, hfeed]
  rw [if_neg (show ¬(List.replicate 499 (0 : Nat) = []) from fun h => by
    have hh := congrArg List.length h
    rw [List.length_replicate, List.length_nil] at hh
    exact absurd hh (by decide))]
  simp only [List.map_append, List.map_cons, List.map_nil, List.length_replicate,
    List.cons_append, List.nil_append]

/-! ### Sample rate converter lemmas -/

theorem processChunk_same_rate_even (rsf : List Int → List Int) (r : Resampler)
    (b : List Nat) (flush : Bool)
    (heq : r.input_sample_rate = r.output_sample_rate)
    (hpar : (r.audio_buffer ++ b).length % 2 = 0) :
    Resampler.processChunk rsf r b flush
      = (r.audio_buffer ++ b, { r with audio_buffer := [] }) := by
  simp only [Resampler.processChunk]
  rw [if_neg (by omega : ¬((r.audio_buffer ++ b).length % 2 ≠ 0))]
  by_cases hemp : r.audio_buffer ++ b = []
  · rw [if_pos hemp, hemp]
  · rw [if_neg hemp, if_pos heq]

theorem processChunk_same_rate_odd (rsf : List Int → List Int) (r : Resampler)
    (b : List Nat)
    (heq : r.input_sample_rate = r.output_sample_rate)
    (hpar : (r.audio_buffer ++ b).length % 2 = 1) :
    Resampler.processChunk rsf r b false
      = ((r.audio_buffer ++ b).dropLast,
         { r with audio_buffer :=
            (r.audio_buffer ++ b).drop ((r.audio_buffer ++ b).length - 1) }) := by
  simp only [Resampler.processChunk]
  rw [if_pos (by omega : (r.audio_buffer ++ b).length % 2 ≠ 0)]
  simp only [Bool.false_eq_true, if_false]
  by_cases hemp : (r.audio_buffer ++ b).dropLast = []
  · rw [if_pos hemp, hemp]
  · rw [if_neg hemp, if_pos heq]

theorem processChunk_same_rate_odd_flush (rsf : List Int → List Int) (r : Resampler)
    (b : List Nat)
    (heq : r.input_sample_rate = r.output_sample_rate)
    (hpar : (r.audio_buffer ++ b).length % 2 = 1) :
    Resampler.processChunk rsf r b true
      = (r.audio_buffer ++ b ++ [0], { r with audio_buffer := [] }) := by
  simp only [Resampler.processChunk]
  rw [if_pos (by omega : (r.audio_buffer ++ b).length % 2 ≠ 0)]
  simp only [if_true]
  rw [if_neg (by simp), if_pos heq]

/-- Claim C3: when the input and output rates are equal the converter is the
    identity: an even-length buffer is returned unchanged by process_chunk,
    and for an odd-length buffer the even part is returned unchanged while the
    buffered odd byte is zero-padded and emitted by the flush call, so the
    concatenated output is the input (plus the single pad byte in the odd
    case). -/
theorem resampler_same_rate_identity (rsf : List Int → List Int) (rate : Nat)
    (b : List Nat) :
    (Resampler.processChunk rsf (mkResampler rate rate) b false).1 ++
      (Resampler.processChunk rsf
        (Resampler.processChunk rsf (mkResampler rate rate) b false).2 [] true).1
      = b ++ (if b.length % 2 = 0 then [] else [0]) := by
  have hbuf : (mkResampler rate rate).audio_buffer = [] := rfl
  have heq : (mkResampler rate rate).input_sample_rate
      = (mkResampler rate rate).output_sample_rate := rfl
  by_cases hpar : b.length % 2 = 0
  · rw [processChunk_same_rate_even rsf _ b false heq (by rw [hbuf]; simpa using hpar)]
    rw [processChunk_same_rate_even rsf _ [] true (by exact heq) (by simp)]
    simp [hpar, hbuf]
  · rw [processChunk_same_rate_odd rsf _ b heq (by rw [hbuf]; simp; omega)]
    rw [processChunk_same_rate_odd_flush rsf _ [] (by exact heq)
      (by simp [List.length_drop]; omega)]
    simp only [hbuf, List.nil_append, List.append_nil, if_neg hpar]
    rw [List.dropLast_eq_take, ← List.append_assoc, List.take_append_drop]

/-- Claim C7 (amended): an end-of-stream flush call drains the odd-byte carry
    buffer (it is empty afterwards), but it does NOT discard the retained
    continuity tail: like every other call it updates the tail to the most
    recent input samples, and the instance is simply never reused after the
    flush inside process_stream. -/
theorem resampler_flush_drains_buffer (rsf : List Int → List Int) (r : Resampler)
    (pcm16 : List Nat) :
    ((Resampler.processChunk rsf r pcm16 true).2).audio_buffer = [] := by
  simp only [Resampler.processChunk]
  split_ifs <;> rfl

/-- Claim C7 (counterexample): after process_stream finishes a 24000-to-16000
    run (including its end-of-stream flush of the buffered odd byte) the
    converter state still holds a non-empty continuity tail, so internal state
    is NOT fully discarded and a later call on the same instance would still be
    influenced by prior audio. -/
theorem resampler_flush_keeps_tail_counterexample :
    (Resampler.processStream rsfTwoThirds (mkResampler 24000 16000)
      [[1, 0, 3]]).2.input_tail ≠ [] := by decide

/-- Claim C4: on a resampling call with differing rates, an empty carry
    buffer, even-length non-empty new input and a non-empty retained tail,
    the code computes tail_out_len = floor(tail_in_len * up / down) and the
    returned samples are exactly the resampled output of the tail-prefixed
    input with that many samples dropped from the front — assuming only the
    documented scipy resample_poly output-length law
    len(out) = ceil(len(in) * up / down), under which the guard
    tail_out_len < len(out) always holds (and dropping 0 samples when
    tail_out_len = 0 is the same as the unconditional drop). -/
theorem resampler_tail_drop (rsf : List Int → List Int) (r : Resampler)
    (pcm16 : List Nat)
    (hrate : ¬r.input_sample_rate = r.output_sample_rate)
    (hbuf : r.audio_buffer = [])
    (heven : pcm16.length % 2 = 0)
    (hne : ¬pcm16 = [])
    (htail : ¬r.input_tail = [])
    (hup : 0 < r.up) (hdown : 0 < r.down)
    (hlaw : ∀ l : List Int, (rsf l).length = (l.length * r.up + r.down - 1) / r.down) :
    (Resampler.processChunk rsf r pcm16 false).1
      = i16ToBytes ((rsf (r.input_tail ++ bytesToI16 pcm16)).drop
          (r.input_tail.length * r.up / r.down)) := by
  have hn1 : 1 ≤ (bytesToI16 pcm16).length := by
    rw [bytesToI16_length]
    have hlen0 : pcm16.length ≠ 0 := fun h => hne (List.length_eq_zero.mp h)
    omega
  have ht1 : 0 < r.input_tail.length := by
    cases hx : r.input_tail with
    | nil => exact absurd hx htail
    | cons a t => simp [hx]
  have hlt : r.input_tail.length * r.up / r.down
      < (rsf (r.input_tail ++ bytesToI16 pcm16)).length := by
    rw [hlaw, List.length_append, Nat.add_mul]
    have h2 : 0 < (bytesToI16 pcm16).length * r.up := Nat.mul_pos (by omega) hup
    have m1 : r.input_tail.length * r.up / r.down + 1
        = (r.input_tail.length * r.up + r.down) / r.down :=
      (Nat.add_div_right _ hdown).symm
    have m2 : (r.input_tail.length * r.up + r.down) / r.down
        ≤ (r.input_tail.length * r.up + (bytesToI16 pcm16).length * r.up
            + r.down - 1) / r.down :=
      Nat.div_le_div_right (by omega)
    omega
  simp only [Resampler.processChunk, hbuf, List.nil_append]
  rw [if_neg (by omega : ¬(pcm16.length % 2 ≠ 0))]
  rw [if_neg hne, if_neg hrate, if_pos ht1]
  by_cases hq : 0 < r.input_tail.length * r.up / r.down
  · rw [if_pos ⟨hq, hlt⟩]
  · have hq0 : r.input_tail.length * r.up / r.down = 0 := Nat.eq_zero_of_not_pos hq
    rw [if_neg (by intro hc; exact hq hc.1)]
    rw [hq0, List.drop_zero]

/-- A resampler state as reached after a first differing-rate call: 24000 to
    16000 Hz (up = 2, down = 3), empty carry buffer, one retained tail
    sample. -/
def rTail5 : Resampler :=
  { input_sample_rate := 24000, output_sample_rate := 16000, audio_buffer := [],
    up := 2, down := 3, tail_len := 30, input_tail := [5] }

/-- Witness for resampler_tail_drop at a concrete state and input. -/
theorem resampler_tail_drop_witness :
    (¬rTail5.input_sample_rate = rTail5.output_sample_rate) ∧
    rTail5.audio_buffer = [] ∧ ([1, 0] : List Nat).length % 2 = 0 ∧
    (¬([1, 0] : List Nat) = []) ∧ (¬rTail5.input_tail = []) ∧
    0 < rTail5.up ∧ 0 < rTail5.down ∧
    (∀ l : List Int, (rsfTwoThirds l).length
      = (l.length * rTail5.up + rTail5.down - 1) / rTail5.down) ∧
    (Resampler.processChunk rsfTwoThirds rTail5 [1, 0] false).1
      = i16ToBytes ((rsfTwoThirds (rTail5.input_tail ++ bytesToI16 [1, 0])).drop
          (rTail5.input_tail.length * rTail5.up / rTail5.down)) :=
  ⟨by decide, rfl, by decide, by decide, by decide, by decide, by decide,
   fun l => by simp [rsfTwoThirds, rTail5],
   resampler_tail_drop rsfTwoThirds rTail5 [1, 0] (by decide) rfl (by decide)
     (by decide) (by decide) (by decide) (by decide)
     (fun l => by simp [rsfTwoThirds, rTail5])⟩

/-! ### Non-finite sample handling -/

theorem clipQ_bounds (v : ℚ) : -1 ≤ clipQ (-1) 1 v ∧ clipQ (-1) 1 v ≤ 1 := by
  unfold clipQ
  refine ⟨le_max_left _ _, max_le (by norm_num) (min_le_left _ _)⟩

theorem finalizeSample_bounds (x : PyFloat) :
    -32767 ≤ finalizeSample x ∧ finalizeSample x ≤ 32767 := by
  unfold finalizeSample truncQ
  obtain ⟨hlo, hhi⟩ := clipQ_bounds (nanToNum x)
  have hlo2 : (-32767 : ℚ) ≤ clipQ (-1) 1 (nanToNum x) * 32767 := by linarith
  have hhi2 : clipQ (-1) 1 (nanToNum x) * 32767 ≤ 32767 := by linarith
  split_ifs with h
  · constructor
    · have h0 : (0 : Int) ≤ Int.floor (clipQ (-1) 1 (nanToNum x) * 32767) :=
        Int.le_floor.mpr (by exact_mod_cast h)
      omega
    · have h1 : ((Int.floor (clipQ (-1) 1 (nanToNum x) * 32767) : Int) : ℚ) ≤ 32767 :=
        le_trans (Int.floor_le _) hhi2
      exact_mod_cast h1
  · constructor
    · have h1 : (-32767 : ℚ) ≤ ((Int.ceil (clipQ (-1) 1 (nanToNum x) * 32767) : Int) : ℚ) :=
        le_trans hlo2 (Int.le_ceil _)
      exact_mod_cast h1
    · have h0 : Int.ceil (clipQ (-1) 1 (nanToNum x) * 32767) ≤ (0 : Int) :=
        Int.ceil_le.mpr (by exact_mod_cast le_of_lt (lt_of_not_le h))
      omega

/-- Claim C8: every byte pair the sample rate converter outputs decodes to a
    finite in-range 16-bit sample: before the integer cast the signal passes
    through nan_to_num (NaN to 0, +Inf to +1, -Inf to -1) and clip(-1, 1), so
    every decoded output sample lies in [-32767, 32767] no matter what the
    resample core produced — non-finite values are never propagated into
    output bytes. -/
theorem resample_output_finite (core : List ℚ → List PyFloat) (pcm16 : List Nat)
    (y : Int) (hy : y ∈ bytesToI16 (resamplePcm16Sync core pcm16)) :
    -32767 ≤ y ∧ y ≤ 32767 := by
  unfold resamplePcm16Sync at hy
  by_cases hp : pcm16 = []
  · rw [if_pos hp] at hy
    simp [bytesToI16] at hy
  · rw [if_neg hp] at hy
    rw [bytesToI16_i16ToBytes] at hy
    · obtain ⟨x, _, hx⟩ := List.mem_map.mp hy
      rw [← hx]
      exact finalizeSample_bounds x
    · intro z hz
      obtain ⟨x, _, hx⟩ := List.mem_map.mp hz
      have hb := finalizeSample_bounds x
      omega

/-- Witness for resample_output_finite: a core that degenerates to NaN on a
    two-byte input still yields the in-range sample 0. -/
theorem resample_output_finite_witness :
    (0 : Int) ∈ bytesToI16 (resamplePcm16Sync (fun _ => [PyFloat.nan]) [0, 0]) ∧
    (-32767 ≤ (0 : Int) ∧ (0 : Int) ≤ 32767) := by
  have hcomp : bytesToI16 (resamplePcm16Sync (fun _ => [PyFloat.nan]) [0, 0]) = [0] := by
    norm_num [resamplePcm16Sync, bytesToI16, i16ToBytes, finalizeSample, nanToNum,
      clipQ, truncQ]
  refine ⟨by rw [hcomp]; exact List.mem_singleton.mpr rfl,
    resample_output_finite (fun _ => [PyFloat.nan]) [0, 0] 0
      (by rw [hcomp]; exact List.mem_singleton.mpr rfl)⟩

/-! ### Text validation -/

theorem dropWhile_all_iff (p : Char → Bool) (l : List Char) :
    (∀ x ∈ l.dropWhile p, p x) ↔ ∀ x ∈ l, p x := by
  induction l with
  | nil => simp
  | cons a t ih =>
      rw [List.dropWhile_cons]
      by_cases hpa : p a
      · rw [if_pos hpa]
        constructor
        · intro h x hx
          rcases List.mem_cons.mp hx with hx | hx
          · rw [hx]; exact hpa
          · exact (ih.mp h) x hx
        · intro h x hx
          exact h x (List.mem_cons_of_mem a ((List.dropWhile_sublist p).subset hx))
      · rw [if_neg hpa]

theorem pyStrip_eq_nil_iff (v : List Char) :
    pyStrip v = [] ↔ v.all pyIsSpace = true := by
  unfold pyStrip
  rw [List.reverse_eq_nil_iff, List.dropWhile_eq_nil_iff, List.all_eq_true]
  constructor
  · intro h
    have h2 : ∀ x ∈ v.dropWhile pyIsSpace, pyIsSpace x :=
      fun x hx => h x (List.mem_reverse.mpr hx)
    exact fun x hx => (dropWhile_all_iff pyIsSpace v).mp h2 x hx
  · intro h x hx
    exact h x ((List.dropWhile_sublist pyIsSpace).subset (List.mem_reverse.mp hx))

/-- Claim C10: SpeakRequest text validation fails with the ValueError exactly
    when the text is empty or consists only of whitespace (its strip() is
    empty), and any text containing a non-whitespace character is accepted
    unchanged. -/
theorem validate_text_spec (v : List Char) :
    validate_text v
      = if v.all pyIsSpace then
          Except.error "Text cannot be empty or whitespace only"
        else Except.ok v := by
  unfold validate_text
  by_cases h : v.all pyIsSpace = true
  · rw [if_pos ((pyStrip_eq_nil_iff v).mpr h), if_pos h]
  · rw [if_neg (fun hc => h ((pyStrip_eq_nil_iff v).mp hc)), if_neg h]

/-! ### Orchestrator: buffered and streaming speak -/

/-- Claim C5 (code evaluated at the failing input): a buffered speak request
    with the WAV target format does not wrap the resampled PCM in a WAV
    header; encode has no WAV branch (pcm2wav is never called) and the call
    fails with the Unsupported MIME type ValueError, for every provider
    audio, resample core and default rate. -/
theorem speak_wav_unsupported (rsf : List Int → List Int) (default_rate : Nat)
    (mdl txt vc : String) (sr cs : Nat) (provider_audio : List Nat) :
    speak rsf default_rate
      { model := mdl, text := txt, voice := vc, mime_type := SpeakMimeType.WAV,
        sample_rate := sr, chunk_size := cs } provider_audio
      = Except.error "Unsupported MIME type: SpeakMimeType.WAV" := rfl

/-- Claim C6: a streaming speak whose provider stream yields no chunks
    returns, without raising, a stream that yields a single empty chunk,
    together with the requested content type and the requested sample rate. -/
theorem stream_speak_empty_provider (rsf : List Int → List Int)
    (default_rate : Nat) (req : SpeakRequest) :
    (stream_speak default_rate req []).2 = (mimeValue req.mime_type, req.sample_rate) ∧
    consumeStream rsf (stream_speak default_rate req []).1 = Except.ok [[]] :=
  ⟨rfl, rfl⟩

/-- Claim C1 (counterexample): a WAV streaming request with a non-empty
    provider stream is NOT rejected before the provider call: stream_speak
    pulls the first provider chunk and returns successfully, and the
    unsupported-format error is raised only when the returned stream is
    consumed. -/
theorem stream_speak_wav_not_rejected_before_pull :
    (stream_speak 24000 reqWav [[1, 0]]).1.pulled_first = some [1, 0] ∧
    consumeStream rsfId (stream_speak 24000 reqWav [[1, 0]]).1
      = Except.error "audio/wav encoding is not supported" :=
  ⟨rfl, rfl⟩

/-- Claim C1 (amended): a streaming request with a container/compressed
    target format (WAV or MP3) is rejected with the unsupported ValueError,
    but only when the returned stream is first consumed: stream_speak itself
    always pulls the first chunk from the provider stream and returns
    successfully, so the rejection happens after the provider call, not
    before it. -/
theorem stream_speak_container_rejected_on_consumption (rsf : List Int → List Int)
    (default_rate : Nat) (req : SpeakRequest) (c : List Nat) (cs : List (List Nat))
    (hm : req.mime_type = SpeakMimeType.WAV ∨ req.mime_type = SpeakMimeType.MP3) :
    (stream_speak default_rate req (c :: cs)).1.pulled_first = some c ∧
    consumeStream rsf (stream_speak default_rate req (c :: cs)).1
      = Except.error (mimeValue req.mime_type ++ " encoding is not supported") := by
  refine ⟨rfl, ?_⟩
  simp only [stream_speak, consumeStream]
  rw [if_pos hm]

/-- Witness for stream_speak_container_rejected_on_consumption with an MP3
    request. -/
theorem stream_speak_container_witness :
    (reqMp3.mime_type = SpeakMimeType.WAV ∨ reqMp3.mime_type = SpeakMimeType.MP3) ∧
    ((stream_speak 24000 reqMp3 [[9, 9]]).1.pulled_first = some [9, 9] ∧
     consumeStream rsfId (stream_speak 24000 reqMp3 [[9, 9]]).1
       = Except.error (mimeValue reqMp3.mime_type ++ " encoding is not supported")) :=
  ⟨Or.inr rfl,
   stream_speak_container_rejected_on_consumption rsfId 24000 reqMp3 [9, 9] []
     (Or.inr rfl)⟩

/-! ### Realtime transcription ingestion pipeline -/

theorem i16ToBytes_ne_nil (l : List Int) (h : ¬l = []) : ¬i16ToBytes l = [] := by
  intro hc
  have hlen := congrArg List.length hc
  rw [i16ToBytes_length] at hlen
  simp only [List.length_nil] at hlen
  exact h (List.length_eq_zero.mp (by omega))

theorem processChunk_preserves_params (rsf : List Int → List Int) (r : Resampler)
    (pcm16 : List Nat) (flush : Bool) :
    (Resampler.processChunk rsf r pcm16 flush).2.up = r.up ∧
    (Resampler.processChunk rsf r pcm16 flush).2.down = r.down ∧
    (Resampler.processChunk rsf r pcm16 flush).2.input_sample_rate = r.input_sample_rate ∧
    (Resampler.processChunk rsf r pcm16 flush).2.output_sample_rate = r.output_sample_rate ∧
    (Resampler.processChunk rsf r pcm16 flush).2.tail_len = r.tail_len := by
  simp only [Resampler.processChunk]
  split_ifs <;> exact ⟨rfl, rfl, rfl, rfl, rfl⟩

theorem processChunk_even_buffer (rsf : List Int → List Int) (r : Resampler)
    (c : List Nat) (flush : Bool) (hbuf : r.audio_buffer = [])
    (he : c.length % 2 = 0) :
    (Resampler.processChunk rsf r c flush).2.audio_buffer = [] := by
  simp only [Resampler.processChunk, hbuf, List.nil_append]
  rw [if_neg (by omega : ¬(c.length % 2 ≠ 0))]
  split_ifs <;> rfl

theorem processChunk_even_output_ne (rsf : List Int → List Int) (r : Resampler)
    (c : List Nat) (hbuf : r.audio_buffer = []) (hc : ¬c = [])
    (he : c.length % 2 = 0) (hup : 0 < r.up) (hdown : 0 < r.down)
    (hlaw : ∀ l : List Int, (rsf l).length = (l.length * r.up + r.down - 1) / r.down) :
    ¬(Resampler.processChunk rsf r c false).1 = [] := by
  have hn1 : 1 ≤ (bytesToI16 c).length := by
    rw [bytesToI16_length]
    have hlen0 : c.length ≠ 0 := fun h => hc (List.length_eq_zero.mp h)
    omega
  have hfull : ∀ t : List Int, 1 ≤ (rsf (t ++ bytesToI16 c)).length := by
    intro t
    rw [hlaw, List.length_append, Nat.add_mul]
    have h2 : 0 < (bytesToI16 c).length * r.up := Nat.mul_pos (by omega) hup
    have key : 1 * r.down
        ≤ t.length * r.up + (bytesToI16 c).length * r.up + r.down - 1 := by
      have h3 : 0 ≤ t.length * r.up := Nat.zero_le _
      omega
    exact (Nat.le_div_iff_mul_le hdown).mpr key
  simp only [Resampler.processChunk, hbuf, List.nil_append]
  rw [if_neg (by omega : ¬(c.length % 2 ≠ 0))]
  dsimp only
  rw [if_neg hc]
  by_cases hrate : r.input_sample_rate = r.output_sample_rate
  · rw [if_pos hrate]; exact hc
  · rw [if_neg hrate]
    dsimp only
    apply i16ToBytes_ne_nil
    split_ifs with h1 h2
    · intro hdrop
      have hlen := congrArg List.length hdrop
      rw [List.length_drop] at hlen
      simp only [List.length_nil] at hlen
      omega
    · intro hfl
      have hlen := congrArg List.length hfl
      simp only [List.length_nil] at hlen
      have h3 := hfull r.input_tail
      omega
    · intro hfl
      have hlen := congrArg List.length hfl
      simp only [List.length_nil] at hlen
      have h3 := hfull r.input_tail
      omega

theorem perChunkOutputs_length (rsf : List Int → List Int) (r : Resampler)
    (chunks : List (List Nat)) :
    (perChunkOutputs rsf r chunks).length = chunks.length := by
  induction chunks generalizing r with
  | nil => rfl
  | cons c cs ih => simp only [perChunkOutputs, List.length_cons, ih]

theorem processStream_eq_perChunk (rsf : List Int → List Int) (r : Resampler)
    (chunks : List (List Nat))
    (hbuf : r.audio_buffer = [])
    (hall : ∀ c ∈ chunks, ¬c = [] ∧ c.length % 2 = 0)
    (hup : 0 < r.up) (hdown : 0 < r.down)
    (hlaw : ∀ l : List Int, (rsf l).length = (l.length * r.up + r.down - 1) / r.down) :
    (Resampler.processStream rsf r chunks).1 = perChunkOutputs rsf r chunks ∧
    ∀ f ∈ perChunkOutputs rsf r chunks, ¬f = [] := by
  induction chunks generalizing r with
  | nil =>
      refine ⟨?_, by intro f hf; simp [perChunkOutputs] at hf⟩
      simp only [Resampler.processStream, if_pos hbuf, perChunkOutputs]
  | cons c cs ih =>
      obtain ⟨hc, he⟩ := hall c (by simp)
      have hne := processChunk_even_output_ne rsf r c hbuf hc he hup hdown hlaw
      have hb2 := processChunk_even_buffer rsf r c false hbuf he
      obtain ⟨hu, hd, _, _, _⟩ := processChunk_preserves_params rsf r c false
      have ih2 := ih (Resampler.processChunk rsf r c false).2 hb2
        (fun x hx => hall x (by simp [hx]))
        (by rw [hu]; exact hup) (by rw [hd]; exact hdown)
        (by rw [hu, hd]; exact hlaw)
      constructor
      · show (if (Resampler.processChunk rsf r c false).1 = [] then []
            else [(Resampler.processChunk rsf r c false).1])
            ++ (Resampler.processStream rsf (Resampler.processChunk rsf r c false).2 cs).1
          = _
        rw [if_neg hne, ih2.1]
        rfl
      · intro f hf
        rw [show perChunkOutputs rsf r (c :: cs)
            = (Resampler.processChunk rsf r c false).1
              :: perChunkOutputs rsf (Resampler.processChunk rsf r c false).2 cs from rfl] at hf
        rcases List.mem_cons.mp hf with hf | hf
        · rw [hf]; exact hne
        · exact ih2.2 f hf

theorem mapM_decode_ok (m : SpeakMimeType)
    (hm : m = SpeakMimeType.PCM ∨ m = SpeakMimeType.ULAW ∨ m = SpeakMimeType.ALAW)
    (chunks : List (List Nat)) :
    chunks.mapM (fun c => decode c m) = Except.ok (chunks.map (decodeOk m)) := by
  induction chunks with
  | nil => rfl
  | cons c cs ih =>
      have hdec : decode c m = Except.ok (decodeOk m c) := by
        rcases hm with h | h | h <;> subst h <;> rfl
      rw [List.mapM_cons, hdec, ih]
      rfl

theorem decodeOk_even (m : SpeakMimeType)
    (hm : m = SpeakMimeType.PCM ∨ m = SpeakMimeType.ULAW ∨ m = SpeakMimeType.ALAW)
    (c : List Nat) (hpcm : m = SpeakMimeType.PCM → c.length % 2 = 0) :
    (decodeOk m c).length % 2 = 0 := by
  rcases hm with h | h | h <;> subst h
  · exact hpcm rfl
  · show (ulaw2lin c).length % 2 = 0
    rw [ulaw2lin, i16ToBytes_length]
    omega
  · show (alaw2lin c).length % 2 = 0
    rw [alaw2lin, i16ToBytes_length]
    omega

theorem decodeOk_ne (m : SpeakMimeType)
    (hm : m = SpeakMimeType.PCM ∨ m = SpeakMimeType.ULAW ∨ m = SpeakMimeType.ALAW)
    (c : List Nat) (hc : ¬c = []) : ¬decodeOk m c = [] := by
  rcases hm with h | h | h <;> subst h
  · exact hc
  · exact i16ToBytes_ne_nil _ (by
      intro hmap
      have := congrArg List.length hmap
      simp only [List.length_map, List.length_nil] at this
      exact hc (List.length_eq_zero.mp this))
  · exact i16ToBytes_ne_nil _ (by
      intro hmap
      have := congrArg List.length hmap
      simp only [List.length_map, List.length_nil] at this
      exact hc (List.length_eq_zero.mp this))

/-- Claim C9: in a realtime transcription session whose inbound chunks are
    all non-empty (and even-length when the declared input format is already
    PCM), the audio handed to the provider send path is exactly: each caller
    chunk decoded from the declared format (PCM, mu-law or A-law) to linear
    PCM and then resampled from the caller rate to the provider rate, one
    forwarded chunk per inbound chunk, in arrival order, with no chunk
    dropped — assuming the scipy resample_poly output-length law for the
    resample core. -/
theorem realtime_order_no_drop (rsf : List Int → List Int) (m : SpeakMimeType)
    (rin rout : Nat) (chunks : List (List Nat))
    (hm : m = SpeakMimeType.PCM ∨ m = SpeakMimeType.ULAW ∨ m = SpeakMimeType.ALAW)
    (hnz : ∀ c ∈ chunks, ¬c = [])
    (hpcm : m = SpeakMimeType.PCM → ∀ c ∈ chunks, c.length % 2 = 0)
    (hrin : 0 < rin) (hrout : 0 < rout)
    (hlaw : ∀ l : List Int, (rsf l).length
      = (l.length * (mkResampler rin rout).up + (mkResampler rin rout).down - 1)
          / (mkResampler rin rout).down) :
    realtimeSendChunks rsf m rin rout chunks
      = Except.ok (perChunkOutputs rsf (mkResampler rin rout)
          (chunks.map (decodeOk m))) ∧
    (perChunkOutputs rsf (mkResampler rin rout) (chunks.map (decodeOk m))).length
      = chunks.length ∧
    ∀ f ∈ perChunkOutputs rsf (mkResampler rin rout) (chunks.map (decodeOk m)),
      ¬f = [] := by
  have hg : 0 < Nat.gcd rin rout := Nat.gcd_pos_of_pos_left rout hrin
  have hup : 0 < (mkResampler rin rout).up := by
    show 0 < rout / Nat.gcd rin rout
    exact Nat.div_pos (Nat.le_of_dvd hrout (Nat.gcd_dvd_right rin rout)) hg
  have hdown : 0 < (mkResampler rin rout).down := by
    show 0 < rin / Nat.gcd rin rout
    exact Nat.div_pos (Nat.le_of_dvd hrin (Nat.gcd_dvd_left rin rout)) hg
  have hall : ∀ c ∈ chunks.map (decodeOk m), ¬c = [] ∧ c.length % 2 = 0 := by
    intro dc hdc
    obtain ⟨c, hcmem, hcd⟩ := List.mem_map.mp hdc
    rw [← hcd]
    exact ⟨decodeOk_ne m hm c (hnz c hcmem),
           decodeOk_even m hm c (fun hp => hpcm hp c hcmem)⟩
  have hmain := processStream_eq_perChunk rsf (mkResampler rin rout)
    (chunks.map (decodeOk m)) rfl hall hup hdown hlaw
  refine ⟨?_, ?_, hmain.2⟩
  · unfold realtimeSendChunks
    rw [mapM_decode_ok m hm chunks]
    show Except.ok (Resampler.processStream rsf (mkResampler rin rout)
      (chunks.map (decodeOk m))).1 = _
    rw [hmain.1]
  · rw [perChunkOutputs_length, List.length_map]

/-- Witness for realtime_order_no_drop: three one-byte mu-law chunks at
    8000 Hz into a 24000 Hz provider (up = 3, down = 1), with a concrete core
    satisfying the output-length law. -/
theorem realtime_order_no_drop_witness :
    ((SpeakMimeType.ULAW = SpeakMimeType.PCM
        ∨ SpeakMimeType.ULAW = SpeakMimeType.ULAW
        ∨ SpeakMimeType.ULAW = SpeakMimeType.ALAW) ∧
     (∀ c ∈ [[7], [8], [9]], ¬c = []) ∧ (0 : Nat) < 8000 ∧ (0 : Nat) < 24000) ∧
    (realtimeSendChunks rsfTriple SpeakMimeType.ULAW 8000 24000 [[7], [8], [9]]
       = Except.ok (perChunkOutputs rsfTriple (mkResampler 8000 24000)
           ([[7], [8], [9]].map (decodeOk SpeakMimeType.ULAW))) ∧
     (perChunkOutputs rsfTriple (mkResampler 8000 24000)
         ([[7], [8], [9]].map (decodeOk SpeakMimeType.ULAW))).length
       = [[7], [8], [9]].length ∧
     ∀ f ∈ perChunkOutputs rsfTriple (mkResampler 8000 24000)
         ([[7], [8], [9]].map (decodeOk SpeakMimeType.ULAW)), ¬f = []) :=
  ⟨⟨Or.inr (Or.inl rfl), by decide, by decide, by decide⟩,
   realtime_order_no_drop rsfTriple SpeakMimeType.ULAW 8000 24000 [[7], [8], [9]]
     (Or.inr (Or.inl rfl)) (by decide)
     (fun hp => absurd hp (by decide))
     (by decide) (by decide)
     (fun l => by
       show (List.replicate (l.length * 3) (0 : Int)).length
         = (l.length * 3 + 1 - 1) / 1
       simp)⟩
